import Mathlib

/-!
Verification of the financier portfolio risk engine (src/lib/Stock.js,
src/lib/Portfolio.js) against its specification.

Numbers are modeled as exact rationals.  A JavaScript arithmetic step whose
result is not a finite number (division by zero producing NaN or an infinity)
is modeled by `Option`: `none` stands for a non-finite result.

Two embeddings are used:
* a functional, value-level model (`StockData`, `Portfolio`) for the
  computational claims; and
* a heap model (`World`, `StockObj`, `PortfolioH`) in which Stock objects and
  their returns arrays are references into explicit heaps, for the claims
  about reference sharing and in-place mutation.
-/

namespace Financier

/-- Value-level state of a Stock object (src/lib/Stock.js).  The constructor
sets ticker, an empty returns list and average 0.  The `value` and `weight`
fields are absent in JS until a Portfolio first assigns them; the model carries
them from the start (initialized to 0) and they are never read by any modeled
operation before being assigned. -/
structure StockData where
  ticker  : String
  returns : List ℚ
  average : ℚ
  value   : ℚ
  weight  : ℚ
deriving DecidableEq, Repr, Inhabited

/-- JS: new Stock(ticker). -/
def Stock.new (t : String) : StockData :=
  { ticker := t, returns := [], average := 0, value := 0, weight := 0 }

/-- The percentage return of one tick: (close - open) / open * 100.
When open = 0 the JS division yields a non-finite number; this is `none`. -/
def tickReturn (o c : ℚ) : Option ℚ :=
  if o = 0 then none else some ((c - o) / o * 100)

/-- JS: Stock.prototype.calculateAverage.  Sums the returns with a loop and
stores sum / returns.length into `average`, returning the new average.
For empty returns JS computes 0/0 = NaN; in this model rational division by
zero yields 0, so theorems about the average assume non-empty returns. -/
def Stock.calculateAverage (s : StockData) : StockData × ℚ :=
  let avg := s.returns.sum / (s.returns.length : ℚ)
  ({ s with average := avg }, avg)

/-- JS: Stock.prototype.push(open, close, wait).  Appends the tick return to
`returns`; unless `wait` is the boolean true (JS: typeof wait is boolean and
wait is truthy), immediately recalculates the average. -/
def Stock.push (s : StockData) (o c : ℚ) (wait : Option Bool) :
    Option StockData := do
  let r ← tickReturn o c
  let s1 := { s with returns := s.returns ++ [r] }
  if wait = some true then pure s1 else pure (Stock.calculateAverage s1).1

/-- Value-level state of a Portfolio object (src/lib/Portfolio.js).
`stocks` is the member map: a JS object keyed by ticker, iterated in
insertion order, modeled as an association list with unique keys.
`risk` is `none` when the stored risk is a non-finite JS number.
`cache` models the JSON.stringify fingerprint of `stocks`: on the states of
this model the serialized string determines, and is determined by, the list
of (key, ticker, returns, average, value, weight) data, so the fingerprint
is modeled as that list itself and the string comparison as list equality. -/
structure Portfolio where
  stocks : List (String × StockData)
  value  : ℚ
  risk   : Option ℚ
  cache  : Option (List (String × StockData))
deriving DecidableEq, Repr

/-- JS: new Portfolio(). -/
def Portfolio.new : Portfolio :=
  { stocks := [], value := 0, risk := some 0, cache := none }

/-- JS object property assignment obj[k] = a: replaces the entry in place if
the key is present (keeping its position, as JS objects keep the original
insertion position of an overwritten key), otherwise appends. -/
def upsert {α : Type} (l : List (String × α)) (k : String) (a : α) :
    List (String × α) :=
  match l with
  | [] => [(k, a)]
  | (k1, a1) :: rest =>
      if k1 = k then (k, a) :: rest else (k1, a1) :: upsert rest k a

/-- JS delete obj[k]: removes the entry with the key if present. -/
def removeKey {α : Type} (l : List (String × α)) (k : String) :
    List (String × α) :=
  match l with
  | [] => []
  | (k1, a1) :: rest =>
      if k1 = k then rest else (k1, a1) :: removeKey rest k

/-- JS property read obj[k]: `none` models the key being absent
(the read yielding undefined). -/
def lookupKey {α : Type} (l : List (String × α)) (k : String) : Option α :=
  match l with
  | [] => none
  | (k1, a1) :: rest => if k1 = k then some a1 else lookupKey rest k

/-- JS: Portfolio.prototype.calculateTotalValue.  Sums the members' values,
stores the sum into `value` and returns it. -/
def Portfolio.calculateTotalValue (p : Portfolio) : Portfolio × ℚ :=
  let total := (p.stocks.map (fun kv => kv.2.value)).sum
  ({ p with value := total }, total)

/-- JS: Portfolio.prototype.calculateWeights.  Calls calculateTotalValue,
then sets each member's weight to value / this.value.  When the total is 0
the JS divisions yield non-finite weights; in this model rational division by
zero yields 0.  No modeled operation reads a weight produced by a
zero-total recompute (calculateRisk returns early when value <= 0), so the
discrepancy is unobservable in the theorems below. -/
def Portfolio.calculateWeights (p : Portfolio) : Portfolio :=
  let p1 := (p.calculateTotalValue).1
  { p1 with
    stocks := p1.stocks.map
      (fun kv => (kv.1, { kv.2 with weight := kv.2.value / p1.value })) }

/-- JS: Portfolio.prototype.addStock(stock, value, clone).  Stores a member
under stock.ticker, sets its value, and recalculates all weights.  With
clone the stored object is a fresh Stock whose ticker, returns and average
are copied from the argument; without, it is the argument object itself.
Either way the stored member's field contents equal those of the argument
with value := v, so the value-level model needs no clone flag; object
identity and the sharing of the returns array are captured by the heap
model below. -/
def Portfolio.addStock (p : Portfolio) (s : StockData) (v : ℚ) : Portfolio :=
  Portfolio.calculateWeights
    { p with stocks := upsert p.stocks s.ticker { s with value := v } }

/-- JS: Portfolio.prototype.removeStock(stock).  Deletes the member keyed by
the ticker (a no-op when absent) and recalculates all weights. -/
def Portfolio.removeStock (p : Portfolio) (t : String) : Portfolio :=
  Portfolio.calculateWeights { p with stocks := removeKey p.stocks t }

/-- JS: Portfolio.prototype.updateStock(stock, value).  Writes
this.stocks[ticker].value = value then recalculates weights.  When the key is
absent the JS property write on undefined throws a TypeError: `none`. -/
def Portfolio.updateStock (p : Portfolio) (t : String) (v : ℚ) :
    Option Portfolio :=
  match lookupKey p.stocks t with
  | none => none
  | some s =>
      some (Portfolio.calculateWeights
        { p with stocks := upsert p.stocks t { s with value := v } })

/-- A caller doing portfolio.stocks[t].push(o, c, w): pushes a tick onto the
member stock in place.  `none` when the key is absent (JS TypeError) or the
push result is non-finite. -/
def Portfolio.pushMember (p : Portfolio) (t : String) (o c : ℚ)
    (w : Option Bool) : Option Portfolio :=
  match lookupKey p.stocks t with
  | none => none
  | some s =>
      match Stock.push s o c w with
      | none => none
      | some s1 => some { p with stocks := upsert p.stocks t s1 }

/-- The summand list of the covariance loop:
(stockA.returns[i] - stockA.average) * (stockB.returns[i] - stockB.average)
for i below the shorter length (List.zip truncates to the minimum). -/
def covDiffSum (a b : StockData) : ℚ :=
  ((a.returns.zip b.returns).map
    (fun q => (q.1 - a.average) * (q.2 - b.average))).sum

/-- JS: Portfolio.prototype.calculateCovariance(stockA, stockB).  The `same`
argument models the reference-identity test stockA === stockB (true exactly
when both arguments are the same object).  For distinct objects the code
sums over i < n = min of the two lengths and divides by n - 1; when n = 1
the JS division by zero yields a non-finite number: `none`. -/
def calculateCovariance (same : Bool) (a b : StockData) : Option ℚ :=
  if same then some 1
  else if ((min a.returns.length b.returns.length : ℕ) : ℤ) - 1 = 0 then none
  else some (covDiffSum a b /
    ((((min a.returns.length b.returns.length : ℕ) : ℤ) - 1 : ℤ) : ℚ))

/-- Dot product of two rows (truncating to the shorter, as the lists built
below always have equal length). -/
def dotProd (xs ys : List ℚ) : ℚ :=
  ((xs.zip ys).map (fun q => q.1 * q.2)).sum

/-- Matrix product, modeled from the multiply method of the Sylvester matrix
library used by Portfolio.js: entry (i, j) is the dot product of row i of A
with column j of B. -/
def matMul (A B : List (List ℚ)) : List (List ℚ) :=
  let cols := (B.headD []).length
  A.map (fun row =>
    (List.range cols).map (fun j => dotProd row (B.map (fun r => r.getD j 0))))

/-- Matrix transpose, modeled from the transpose method of Sylvester. -/
def matTranspose (M : List (List ℚ)) : List (List ℚ) :=
  let cols := (M.headD []).length
  (List.range cols).map (fun j => M.map (fun r => r.getD j 0))

/-- Sylvester .e(1, 1): the top-left entry. -/
def e11 (M : List (List ℚ)) : ℚ := (M.headD []).headD 0

/-- Sequence a list of possibly non-finite numbers: `none` as soon as one
entry is `none` (a NaN entry in JS poisons every later aggregate). -/
def optionList {α : Type} : List (Option α) → Option (List α)
  | [] => some []
  | o :: rest => do
      let a ← o
      let as ← optionList rest
      pure (a :: as)

/-- JS: Portfolio.prototype.createWeightMatrix on a member list.  Sylvester
Matrix.create on a flat array builds a column matrix: one singleton row per
member weight, in member-map iteration order. -/
def weightMatrixOf (l : List (String × StockData)) : List (List ℚ) :=
  l.map (fun kv => [kv.2.weight])

/-- JS: Portfolio.prototype.createCovarianceMatrix on a member list.  Entry
(i, j) is calculateCovariance of members i and j.  The identity test
stockA === stockB holds exactly when i = j: distinct keys of the member map
always hold distinct objects, because addStock keys each stored object by
that object's own ticker and no modeled operation mutates a ticker. -/
def covMatrixOf (l : List (String × StockData)) : Option (List (List ℚ)) :=
  let n := l.length
  optionList ((List.range n).map (fun i =>
    optionList ((List.range n).map (fun j =>
      calculateCovariance (decide (i = j))
        (l.getD i default).2 (l.getD j default).2))))

def Portfolio.createWeightMatrix (p : Portfolio) : List (List ℚ) :=
  weightMatrixOf p.stocks

def Portfolio.createCovarianceMatrix (p : Portfolio) :
    Option (List (List ℚ)) :=
  covMatrixOf p.stocks

/-- The uncached risk computation of Portfolio.prototype.calculateRisk:
build the weight column w and covariance matrix C, multiply C by w, then
multiply the transpose of w by the intermediate and take entry (1, 1).
`none` when any covariance entry is non-finite. -/
def riskOf (l : List (String × StockData)) : Option ℚ := do
  let wM := weightMatrixOf l
  let cM ← covMatrixOf l
  let intermediate := matMul cM wM
  pure (e11 (matMul (matTranspose wM) intermediate))

/-- JS: Portfolio.prototype.calculateRisk.  Returns 0 when value <= 0
without touching cache or risk.  Otherwise compares the fingerprint of the
current member map with the cache; on a miss it recomputes, stores the new
fingerprint and risk; either way it returns the stored risk. -/
def Portfolio.calculateRisk (p : Portfolio) : Portfolio × Option ℚ :=
  if p.value ≤ 0 then (p, some 0)
  else if p.cache = some p.stocks then (p, p.risk)
  else
    let r := riskOf p.stocks
    ({ p with cache := some p.stocks, risk := r }, r)

/-- Sum of the members' market values. -/
def sumValues (l : List (String × StockData)) : ℚ :=
  (l.map (fun kv => kv.2.value)).sum

/-- Sum of the members' weights. -/
def weightSum (p : Portfolio) : ℚ :=
  (p.stocks.map (fun kv => kv.2.weight)).sum

/-- The risk computed fresh from the current member set alone, ignoring the
cache, from the words of the spec: 0 when the total of the current member
values is not positive, otherwise the quadratic form on the current weights
and covariances. -/
def freshRisk (p : Portfolio) : Option ℚ :=
  if sumValues p.stocks ≤ 0 then some 0 else riskOf p.stocks

/-- One operation on a portfolio: the four mutations (addStock, removeStock,
updateStock, a push on a member stock) and calculateRisk itself. -/
inductive Step : Portfolio → Portfolio → Prop where
  | add (p : Portfolio) (s : StockData) (v : ℚ) : Step p (p.addStock s v)
  | remove (p : Portfolio) (t : String) : Step p (p.removeStock t)
  | update (p q : Portfolio) (t : String) (v : ℚ) :
      p.updateStock t v = some q → Step p q
  | push (p q : Portfolio) (t : String) (o c : ℚ) (w : Option Bool) :
      p.pushMember t o c w = some q → Step p q
  | calcRisk (p : Portfolio) : Step p (p.calculateRisk).1

/-- The portfolio states reachable from a fresh Portfolio by any sequence of
operations. -/
inductive Reach : Portfolio → Prop where
  | init : Reach Portfolio.new
  | step {p q : Portfolio} : Reach p → Step p q → Reach q

/-! ## Heap model

JavaScript objects are references.  `World` is an explicit heap: `arrays` is
the heap of returns arrays and `stocks` the heap of Stock objects, each
addressed by its index; allocation appends.  A Stock object holds a
reference (`returnsRef`) to its returns array, so two Stock objects can
share one array, which is exactly what the clone branch of addStock
produces (copy.returns = stock.returns copies the reference only). -/

/-- A Stock object on the heap: its returns field is a reference into
`World.arrays`.  As in `StockData`, the `value` and `weight` fields are
absent in JS until first assigned and are modeled as 0 until then. -/
structure StockObj where
  ticker     : String
  returnsRef : ℕ
  average    : ℚ
  value      : ℚ
  weight     : ℚ
deriving DecidableEq, Repr, Inhabited

/-- The heap. -/
structure World where
  arrays : List (List ℚ)
  stocks : List StockObj
deriving DecidableEq, Repr

def World.empty : World := { arrays := [], stocks := [] }

/-- JS: new Stock(ticker) — allocates a fresh empty returns array and a
fresh Stock object referring to it; returns the new object's reference. -/
def World.newStock (w : World) (t : String) : World × ℕ :=
  let aref := w.arrays.length
  let sref := w.stocks.length
  ({ arrays := w.arrays ++ [[]]
   , stocks := w.stocks ++
       [{ ticker := t, returnsRef := aref, average := 0, value := 0
        , weight := 0 }] }, sref)

def World.getStock (w : World) (r : ℕ) : StockObj :=
  w.stocks.getD r default

def World.setStock (w : World) (r : ℕ) (s : StockObj) : World :=
  { w with stocks := w.stocks.set r s }

/-- The contents of the returns array of the Stock object at reference r. -/
def World.getReturns (w : World) (r : ℕ) : List ℚ :=
  w.arrays.getD (w.getStock r).returnsRef []

/-- Heap version of Stock.prototype.push: appends the tick return to the
referenced array in place (every object sharing the array sees the append),
then, unless wait is the boolean true, recalculates the average of the
pushed-to object. -/
def World.pushStock (w : World) (r : ℕ) (o c : ℚ) (wait : Option Bool) :
    Option World := do
  let rv ← tickReturn o c
  let s := w.getStock r
  let arr := (w.arrays.getD s.returnsRef []) ++ [rv]
  let w1 : World := { w with arrays := w.arrays.set s.returnsRef arr }
  if wait = some true then pure w1
  else pure (w1.setStock r { s with average := arr.sum / (arr.length : ℚ) })

/-- A Portfolio in the heap model: the member map holds references to Stock
objects on the heap.  The risk and cache fields are omitted: none of the
operations modeled here (addStock, calculateWeights) reads or writes them. -/
structure PortfolioH where
  members : List (String × ℕ)
  value   : ℚ
deriving DecidableEq, Repr

def PortfolioH.new : PortfolioH := { members := [], value := 0 }

/-- The weight-assignment loop of calculateWeights: for each member
reference, writes weight := value / total onto the referenced Stock object
(an in-place mutation of the shared heap object). -/
def setWeights (w : World) (ms : List (String × ℕ)) (total : ℚ) : World :=
  match ms with
  | [] => w
  | (_, r) :: rest =>
      let s := w.getStock r
      setWeights (w.setStock r { s with weight := s.value / total }) rest total

/-- Heap version of Portfolio.prototype.calculateWeights: sums the members'
values into the portfolio value (calculateTotalValue), then runs the
weight-assignment loop over the member references. -/
def World.calculateWeightsH (w : World) (p : PortfolioH) :
    World × PortfolioH :=
  let total := (p.members.map (fun kv => (w.getStock kv.2).value)).sum
  (setWeights w p.members total, { p with value := total })

/-- Heap version of Portfolio.prototype.addStock(stock, value, clone).
With clone, a fresh Stock object is allocated (new Stock(stock.ticker)
allocates a fresh empty array, immediately discarded) and its returns field
is then set to the original returns REFERENCE (copy.returns = stock.returns
copies the reference, not the array) with the average copied by value; the
member map stores the fresh object.  Without clone the member map stores
the caller's reference itself.  Then value is assigned on the stored member
and all weights are recalculated. -/
def World.addStockH (w : World) (p : PortfolioH) (sref : ℕ) (v : ℚ)
    (clone : Bool) : World × PortfolioH :=
  let s := w.getStock sref
  let wm : World × ℕ :=
    if clone then
      ({ arrays := w.arrays ++ [[]]
       , stocks := w.stocks ++
           [{ ticker := s.ticker, returnsRef := s.returnsRef
            , average := s.average, value := 0, weight := 0 }] }
      , w.stocks.length)
    else (w, sref)
  let p1 : PortfolioH := { p with members := upsert p.members s.ticker wm.2 }
  let w2 := wm.1.setStock wm.2 { wm.1.getStock wm.2 with value := v }
  w2.calculateWeightsH p1

/-! ## Concrete states used by the scenario theorems and witnesses -/

/-- The intel series after its first tick (10,20). -/
def intel1 : StockData :=
  { ticker := "intel", returns := [100], average := 100, value := 0
  , weight := 0 }

/-- The intel series after its second tick (20,30). -/
def intel2 : StockData :=
  { ticker := "intel", returns := [100, 50], average := 75, value := 0
  , weight := 0 }

/-- The intel series after its third tick (30,15). -/
def intel3 : StockData :=
  { ticker := "intel", returns := [100, 50, -50], average := 100 / 3
  , value := 0, weight := 0 }

/-- The apple series after its first tick (10,20). -/
def apple1 : StockData :=
  { ticker := "apple", returns := [100], average := 100, value := 0
  , weight := 0 }

/-- The apple series after its second tick (20,30). -/
def apple2 : StockData :=
  { ticker := "apple", returns := [100, 50], average := 75, value := 0
  , weight := 0 }

/-- The scenario portfolio holding intel at value 30 and apple at value
20. -/
def scenPort : Portfolio :=
  { stocks :=
      [("intel",
        { ticker := "intel", returns := [100, 50, -50], average := 100 / 3
        , value := 30, weight := 3 / 5 }),
       ("apple",
        { ticker := "apple", returns := [100, 50], average := 75
        , value := 20, weight := 2 / 5 })]
  , value := 50, risk := some 0, cache := none }

/-- The heap after new Stock of ticker A. -/
def wA0 : World :=
  { arrays := [[]]
  , stocks := [{ ticker := "A", returnsRef := 0, average := 0, value := 0
               , weight := 0 }] }

/-- The heap after pushing tick (10,20) onto stock A. -/
def wA1 : World :=
  { arrays := [[100]]
  , stocks := [{ ticker := "A", returnsRef := 0, average := 100, value := 0
               , weight := 0 }] }

/-- The heap after registering stock A with clone = true at value 1: the
clone at reference 1 holds the SAME returnsRef 0 as the original. -/
def wA2 : World :=
  { arrays := [[100], []]
  , stocks := [{ ticker := "A", returnsRef := 0, average := 100, value := 0
               , weight := 0 },
               { ticker := "A", returnsRef := 0, average := 100, value := 1
               , weight := 1 }] }

/-- The portfolio after registering the clone of stock A. -/
def pA : PortfolioH := { members := [("A", 1)], value := 1 }

/-- The heap after pushing a second tick (10,20) onto the ORIGINAL stock A:
the shared array 0 now holds [100, 100]. -/
def wA3 : World :=
  { arrays := [[100, 100], []]
  , stocks := [{ ticker := "A", returnsRef := 0, average := 100, value := 0
               , weight := 0 },
               { ticker := "A", returnsRef := 0, average := 100, value := 1
               , weight := 1 }] }

/-- The portfolio wPort after updateStock of A to value 7. -/
def wPortUpd : Portfolio :=
  { stocks :=
      [("A", { ticker := "A", returns := [], average := 0, value := 7
             , weight := 7 / 22 }),
       ("B", { ticker := "B", returns := [], average := 0, value := 15
             , weight := 15 / 22 })]
  , value := 22, risk := some 0, cache := none }

/-- A stock with a single recorded return, for witnesses. -/
def exStock : StockData :=
  { ticker := "X", returns := [100], average := 100, value := 0, weight := 0 }

/-- A stock with a single recorded return, for witnesses. -/
def oneTickA : StockData :=
  { ticker := "A", returns := [100], average := 100, value := 0, weight := 0 }

/-- A stock with a single recorded return, for witnesses. -/
def oneTickB : StockData :=
  { ticker := "B", returns := [50], average := 50, value := 0, weight := 0 }

/-- A two-member portfolio, for witnesses. -/
def wPort : Portfolio :=
  (Portfolio.new.addStock (Stock.new ("A")) 5).addStock (Stock.new ("B")) 15

/-- The state invariant maintained by every operation: the stored total value
matches the member values, and whenever a fingerprint is cached, the stored
risk is the risk of the fingerprinted member data. -/
def Inv (p : Portfolio) : Prop :=
  p.value = sumValues p.stocks ∧ ∀ c, p.cache = some c → p.risk = riskOf c

/-! ## Helper lemmas -/

lemma getD_set {α : Type} (l : List α) (i j : ℕ) (a d : α) :
    (l.set i a).getD j d = if i = j ∧ i < l.length then a else l.getD j d := by
  induction l generalizing i j with
  | nil => simp
  | cons x xs ih =>
      cases i with
      | zero =>
          cases j with
          | zero => simp
          | succ j => simp
      | succ i =>
          cases j with
          | zero => simp
          | succ j => simpa using ih i j

lemma lookup_upsert {α : Type} (l : List (String × α)) (k : String) (a : α) :
    lookupKey (upsert l k a) k = some a := by
  induction l with
  | nil => simp [upsert, lookupKey]
  | cons kv rest ih =>
      by_cases h : kv.1 = k
      · simp [upsert, lookupKey, h]
      · simp [upsert, lookupKey, h, ih]

lemma mem_upsert {α : Type} (l : List (String × α)) (k : String) (a : α) :
    (k, a) ∈ upsert l k a := by
  induction l with
  | nil => simp [upsert]
  | cons kv rest ih =>
      by_cases h : kv.1 = k
      · simp [upsert, h]
      · simp only [upsert, if_neg h]
        exact List.mem_cons_of_mem _ ih

lemma removeKey_absent {α : Type} (l : List (String × α)) (k : String)
    (h : lookupKey l k = none) : removeKey l k = l := by
  induction l with
  | nil => rfl
  | cons kv rest ih =>
      by_cases hk : kv.1 = k
      · simp [lookupKey, hk] at h
      · simp only [lookupKey, if_neg hk] at h
        simp [removeKey, hk, ih h]

lemma zip_sub_mul_sum_comm (A B : ℚ) (xs ys : List ℚ) :
    ((xs.zip ys).map (fun q => (q.1 - A) * (q.2 - B))).sum
      = ((ys.zip xs).map (fun q => (q.1 - B) * (q.2 - A))).sum := by
  induction xs generalizing ys with
  | nil => cases ys <;> simp
  | cons x xs ih =>
      cases ys with
      | nil => simp
      | cons y ys => simp [ih, mul_comm]

lemma covDiffSum_comm (a b : StockData) : covDiffSum a b = covDiffSum b a :=
  zip_sub_mul_sum_comm a.average b.average a.returns b.returns

/-! ## Claim theorems -/

/-- C1 (code bug witnessed on the heap model): build stock A with one tick
of 100, register it in a portfolio with clone = true at value 1, look up the
cloned member, then push another tick of 100 onto the ORIGINAL stock.  At
registration the member sees returns [100]; after the push on the original
the member sees returns [100, 100] — the snapshot is NOT frozen, because
copy.returns = stock.returns shares the one array object — while the member
average stays frozen at 100.  This contradicts the documented contract that
a cloned member is independent of the original. -/
theorem clone_member_returns_not_frozen :
    World.empty.newStock ("A") = (wA0, 0) ∧
    wA0.pushStock 0 10 20 none = some wA1 ∧
    wA1.addStockH PortfolioH.new 0 1 true = (wA2, pA) ∧
    lookupKey pA.members ("A") = some 1 ∧
    wA2.getReturns 1 = [100] ∧
    wA2.pushStock 0 10 20 none = some wA3 ∧
    wA3.getReturns 1 = [100, 100] ∧
    (wA3.getStock 1).average = 100 := by
  refine ⟨?_, ?_, ?_, ?_, ?_, ?_, ?_, ?_⟩
  · rfl
  · simp [World.pushStock, World.getStock, World.setStock, tickReturn,
      wA0, wA1]
    norm_num
  · simp [World.addStockH, World.calculateWeightsH, World.getStock,
      World.setStock, setWeights, upsert, wA1, wA2, pA, PortfolioH.new]
  · simp [lookupKey, pA]
  · simp [World.getReturns, World.getStock, wA2]
  · simp [World.pushStock, World.getStock, World.setStock, tickReturn,
      wA2, wA3]
    norm_num
  · simp [World.getReturns, World.getStock, wA3]
  · simp [World.getStock, wA3]

/-- C3: the end-to-end scenario.  Ticks (10,20),(20,30),(30,15) give intel
returns [100, 50, -50] with average 100/3; ticks (10,20),(20,30) give apple
returns [100, 50] with average 75; the portfolio holding intel at 30 and
apple at 20 has total value 50, weights [3/5, 2/5], covariance(intel, apple)
= 1250, covariance matrix [[1, 1250], [1250, 1]] and risk exactly 600.52. -/
theorem end_to_end_scenario :
    Stock.push (Stock.new ("intel")) 10 20 none = some intel1 ∧
    Stock.push intel1 20 30 none = some intel2 ∧
    Stock.push intel2 30 15 none = some intel3 ∧
    intel3.returns = [100, 50, -50] ∧ intel3.average = 100 / 3 ∧
    Stock.push (Stock.new ("apple")) 10 20 none = some apple1 ∧
    Stock.push apple1 20 30 none = some apple2 ∧
    apple2.returns = [100, 50] ∧ apple2.average = 75 ∧
    (Portfolio.new.addStock intel3 30).addStock apple2 20 = scenPort ∧
    (scenPort.calculateTotalValue).2 = 50 ∧
    scenPort.stocks.map (fun kv => kv.2.weight) = [3 / 5, 2 / 5] ∧
    calculateCovariance false intel3 apple2 = some 1250 ∧
    scenPort.createCovarianceMatrix = some [[1, 1250], [1250, 1]] ∧
    (scenPort.calculateRisk).2 = some 600.52 := by
  refine ⟨?_, ?_, ?_, rfl, rfl, ?_, ?_, rfl, rfl, ?_, ?_, ?_, ?_, ?_, ?_⟩
  · simp [Stock.push, Stock.new, Stock.calculateAverage, tickReturn, intel1]
    norm_num
  · simp [Stock.push, Stock.calculateAverage, tickReturn, intel1, intel2]
    norm_num
  · simp [Stock.push, Stock.calculateAverage, tickReturn, intel2, intel3]
    norm_num
  · simp [Stock.push, Stock.new, Stock.calculateAverage, tickReturn, apple1]
    norm_num
  · simp [Stock.push, Stock.calculateAverage, tickReturn, apple1, apple2]
    norm_num
  · simp [Portfolio.addStock, Portfolio.new, Portfolio.calculateWeights,
      Portfolio.calculateTotalValue, upsert, intel3, apple2, scenPort]
    norm_num
  · simp [Portfolio.calculateTotalValue, scenPort]
    norm_num
  · simp [scenPort]
  · simp [calculateCovariance, covDiffSum, intel3, apple2]
    norm_num
  · simp [Portfolio.createCovarianceMatrix, covMatrixOf, optionList,
      calculateCovariance, covDiffSum, scenPort, List.range_succ]
    norm_num
  · simp [Portfolio.calculateRisk, riskOf, weightMatrixOf, covMatrixOf,
      optionList, calculateCovariance, covDiffSum, matMul, matTranspose,
      dotProd, e11, scenPort, List.range_succ]
    norm_num

/-- C4: covariance of a stock with itself, with the identity test true (the
arguments are the same object), is exactly 1, whatever the returns and the
average are — the identity branch returns before any statistics. -/
theorem self_covariance_one (s : StockData) :
    calculateCovariance true s s = some 1 := rfl

/-- C5 counterexample: two distinct stocks with no ticks at all have
n = min(len, len) = 0 <= 1, yet calculateCovariance silently returns the
finite value 0 (the loop adds nothing and 0 / (0 - 1) = -0), instead of
failing or producing a non-finite result as the claim states. -/
theorem covariance_no_ticks_finite :
    min (Stock.new ("A")).returns.length (Stock.new ("B")).returns.length ≤ 1
    ∧ calculateCovariance false (Stock.new ("A")) (Stock.new ("B"))
        = some 0 := by
  norm_num [calculateCovariance, covDiffSum, Stock.new]

/-- C5 amended: for distinct stocks, when n = 1 the covariance divides by
zero and the output is non-finite (undefined); but when n = 0 it silently
returns the finite value 0, because the empty sum divided by n - 1 = -1
is -0. -/
theorem covariance_small_n (a b : StockData) :
    (min a.returns.length b.returns.length = 1 →
      calculateCovariance false a b = none) ∧
    (min a.returns.length b.returns.length = 0 →
      calculateCovariance false a b = some 0) := by
  constructor
  · intro h
    simp [calculateCovariance, h]
  · intro h
    rcases Nat.min_eq_zero_iff.mp h with h0 | h0
    · have ha : a.returns = [] := List.eq_nil_of_length_eq_zero h0
      simp [calculateCovariance, covDiffSum, h, ha]
    · have hb : b.returns = [] := List.eq_nil_of_length_eq_zero h0
      simp [calculateCovariance, covDiffSum, h, hb]

/-- Witness for the amended C5 at concrete inputs: one overlapping tick
gives a non-finite covariance; no overlapping tick gives the finite 0. -/
theorem covariance_small_n_witness :
    calculateCovariance false oneTickA oneTickB = none ∧
    calculateCovariance false (Stock.new ("C")) (Stock.new ("D"))
      = some 0 :=
  ⟨(covariance_small_n oneTickA oneTickB).1 (by decide),
   (covariance_small_n (Stock.new ("C")) (Stock.new ("D"))).2 (by decide)⟩

/-- C9: covariance between two distinct stocks (identity test false both
ways) is symmetric: the minimum of the lengths and the summed products are
both symmetric in the two arguments. -/
theorem covariance_symm (a b : StockData) :
    calculateCovariance false a b = calculateCovariance false b a := by
  unfold calculateCovariance
  rw [covDiffSum_comm, Nat.min_comm a.returns.length]

/-- C8: for a stock with non-empty returns, calculateAverage both returns
and stores the arithmetic mean of the returns; and push with wait absent or
false appends (close - open) / open * 100 to the returns and immediately
recomputes the stored average of the extended list. -/
theorem push_appends_and_averages (s : StockData) :
    (s.returns ≠ [] →
      (Stock.calculateAverage s).2 = s.returns.sum / (s.returns.length : ℚ) ∧
      (Stock.calculateAverage s).1.average = (Stock.calculateAverage s).2) ∧
    (∀ (o c : ℚ) (w : Option Bool), o ≠ 0 → (w = none ∨ w = some false) →
      Stock.push s o c w =
        some { s with
               returns := s.returns ++ [(c - o) / o * 100]
             , average := (s.returns ++ [(c - o) / o * 100]).sum /
                 ((s.returns ++ [(c - o) / o * 100]).length : ℚ) }) := by
  constructor
  · intro _
    exact ⟨rfl, rfl⟩
  · intro o c w ho hw
    rcases hw with h | h <;> subst h <;>
      simp [Stock.push, tickReturn, Stock.calculateAverage, ho]

/-- Witness for C8 at a stock with returns [100] and the tick (10,20). -/
theorem push_appends_and_averages_witness :
    ((Stock.calculateAverage exStock).2
        = exStock.returns.sum / (exStock.returns.length : ℚ) ∧
     (Stock.calculateAverage exStock).1.average
        = (Stock.calculateAverage exStock).2) ∧
    Stock.push exStock 10 20 none =
      some { exStock with
             returns := exStock.returns ++ [((20 : ℚ) - 10) / 10 * 100]
           , average := (exStock.returns ++ [((20 : ℚ) - 10) / 10 * 100]).sum
               / ((exStock.returns ++ [((20 : ℚ) - 10) / 10 * 100]).length
                   : ℚ) } :=
  ⟨(push_appends_and_averages exStock).1 (by simp [exStock]),
   (push_appends_and_averages exStock).2 10 20 none (by norm_num)
     (Or.inl rfl)⟩

lemma weightSum_calculateWeights (p : Portfolio)
    (h : 0 < (p.calculateWeights).value) :
    weightSum (p.calculateWeights) = 1 := by
  have hv : (p.calculateWeights).value
      = (p.stocks.map (fun kv => kv.2.value)).sum := rfl
  have hs : weightSum (p.calculateWeights)
      = (p.stocks.map (fun kv =>
          kv.2.value / (p.stocks.map (fun kv => kv.2.value)).sum)).sum := by
    simp only [weightSum, Portfolio.calculateWeights,
      Portfolio.calculateTotalValue, List.map_map]
    exact congrArg List.sum (List.map_congr_left (fun kv _ => rfl))
  rw [hv] at h
  rw [hs]
  have hmul : (p.stocks.map (fun kv =>
      kv.2.value / (p.stocks.map (fun kv => kv.2.value)).sum)).sum
      = (p.stocks.map (fun kv => kv.2.value)).sum
        * ((p.stocks.map (fun kv => kv.2.value)).sum)⁻¹ := by
    simp only [div_eq_mul_inv]
    rw [← List.sum_map_mul_right]
  rw [hmul, mul_inv_cancel₀ (ne_of_gt h)]

/-- C6: after each of the operations that recompute weights (addStock,
removeStock, updateStock — each ends in calculateWeights), if the resulting
total value is positive then the members' weights sum to exactly 1. -/
theorem weights_sum_to_one :
    (∀ (p : Portfolio) (s : StockData) (v : ℚ),
        0 < (p.addStock s v).value → weightSum (p.addStock s v) = 1) ∧
    (∀ (p : Portfolio) (t : String),
        0 < (p.removeStock t).value → weightSum (p.removeStock t) = 1) ∧
    (∀ (p q : Portfolio) (t : String) (v : ℚ),
        p.updateStock t v = some q → 0 < q.value → weightSum q = 1) := by
  refine ⟨fun p s v h => weightSum_calculateWeights _ h,
          fun p t h => weightSum_calculateWeights _ h, ?_⟩
  intro p q t v hq h
  unfold Portfolio.updateStock at hq
  cases hl : lookupKey p.stocks t with
  | none => rw [hl] at hq; exact absurd hq (by simp)
  | some s =>
      rw [hl] at hq
      have hq2 : Portfolio.calculateWeights
          { p with stocks := upsert p.stocks t { s with value := v } }
          = q := by
        exact Option.some.inj hq
      rw [← hq2] at h ⊢
      exact weightSum_calculateWeights _ h

/-- Witness for C6: each of the three operations at a concrete input. -/
theorem weights_sum_to_one_witness :
    weightSum (Portfolio.new.addStock (Stock.new ("A")) 2) = 1 ∧
    weightSum (wPort.removeStock ("B")) = 1 ∧
    weightSum wPortUpd = 1 := by
  refine ⟨?_, ?_, ?_⟩
  · refine weights_sum_to_one.1 Portfolio.new (Stock.new ("A")) 2 ?_
    simp [Portfolio.addStock, Portfolio.new, Portfolio.calculateWeights,
      Portfolio.calculateTotalValue, upsert, Stock.new]
  · refine weights_sum_to_one.2.1 wPort ("B") ?_
    simp [wPort, Portfolio.addStock, Portfolio.new, Portfolio.removeStock,
      Portfolio.calculateWeights, Portfolio.calculateTotalValue, upsert,
      removeKey, Stock.new]
  · refine weights_sum_to_one.2.2 wPort wPortUpd ("A") 7 ?_ ?_
    · simp [wPort, wPortUpd, Portfolio.addStock, Portfolio.new,
        Portfolio.updateStock, Portfolio.calculateWeights,
        Portfolio.calculateTotalValue, upsert, lookupKey, Stock.new]
      norm_num
    · norm_num [wPortUpd]

/-- C7: when the identifier is not a current member, updateStock fails (the
property write on an undefined member throws), while removeStock does not
fail: it leaves the member map unchanged and still performs the full weight
recompute (the result is exactly calculateWeights of the unchanged
portfolio). -/
theorem update_absent_fails_remove_absent_recomputes
    (p : Portfolio) (t : String) (v : ℚ)
    (h : lookupKey p.stocks t = none) :
    p.updateStock t v = none ∧ p.removeStock t = p.calculateWeights := by
  constructor
  · simp [Portfolio.updateStock, h]
  · unfold Portfolio.removeStock
    rw [removeKey_absent _ _ h]

/-- Witness for C7 on the two-member portfolio and an absent ticker. -/
theorem update_absent_fails_remove_absent_recomputes_witness :
    wPort.updateStock ("C") 3 = none ∧
    wPort.removeStock ("C") = wPort.calculateWeights :=
  update_absent_fails_remove_absent_recomputes wPort ("C") 3
    (by simp [wPort, Portfolio.addStock, Portfolio.new,
      Portfolio.calculateWeights, Portfolio.calculateTotalValue, upsert,
      lookupKey, Stock.new])

lemma calculateWeights_cache (p : Portfolio) :
    (p.calculateWeights).cache = p.cache := rfl

lemma calculateWeights_risk (p : Portfolio) :
    (p.calculateWeights).risk = p.risk := rfl

lemma calculateWeights_value (p : Portfolio) :
    (p.calculateWeights).value = sumValues p.stocks := rfl

lemma calculateWeights_sumValues (p : Portfolio) :
    sumValues (p.calculateWeights).stocks = sumValues p.stocks := by
  simp only [sumValues, Portfolio.calculateWeights,
    Portfolio.calculateTotalValue, List.map_map]
  exact congrArg List.sum (List.map_congr_left (fun kv _ => rfl))

lemma sumValues_upsert (l : List (String × StockData)) (t : String)
    (s s1 : StockData) (hl : lookupKey l t = some s)
    (hv : s1.value = s.value) : sumValues (upsert l t s1) = sumValues l := by
  induction l with
  | nil => simp [lookupKey] at hl
  | cons kv rest ih =>
      by_cases hk : kv.1 = t
      · simp only [lookupKey, if_pos hk] at hl
        obtain rfl : kv.2 = s := Option.some.inj hl
        simp [upsert, hk, sumValues, hv]
      · simp only [lookupKey, if_neg hk] at hl
        simp only [upsert, if_neg hk]
        simp only [sumValues, List.map_cons, List.sum_cons] at ih ⊢
        rw [ih hl]

lemma push_preserves_value (s s1 : StockData) (o c : ℚ) (w : Option Bool)
    (h : Stock.push s o c w = some s1) : s1.value = s.value := by
  by_cases ho : o = 0
  · simp [Stock.push, tickReturn, ho] at h
  · by_cases hw : w = some true
    · simp only [Stock.push, tickReturn, if_neg ho, Option.some_bind,
        if_pos hw, pure] at h
      rw [← Option.some.inj h]
    · simp only [Stock.push, tickReturn, if_neg ho, Option.some_bind,
        if_neg hw, pure, Stock.calculateAverage] at h
      rw [← Option.some.inj h]

lemma inv_calculateWeights (p : Portfolio)
    (hc : ∀ c, p.cache = some c → p.risk = riskOf c) :
    Inv (p.calculateWeights) := by
  constructor
  · rw [calculateWeights_value, calculateWeights_sumValues]
  · intro c h
    rw [calculateWeights_cache] at h
    rw [calculateWeights_risk]
    exact hc c h

lemma inv_step {p q : Portfolio} (hp : Inv p) (hs : Step p q) : Inv q := by
  cases hs with
  | add s v => exact inv_calculateWeights _ hp.2
  | remove t => exact inv_calculateWeights _ hp.2
  | update q t v h =>
      unfold Portfolio.updateStock at h
      cases hl : lookupKey p.stocks t with
      | none => rw [hl] at h; exact absurd h (by simp)
      | some s =>
          rw [hl] at h
          rw [← Option.some.inj h]
          exact inv_calculateWeights _ hp.2
  | push q t o c w h =>
      unfold Portfolio.pushMember at h
      split at h
      next => exact absurd h (by simp)
      next s hl =>
        split at h
        next => exact absurd h (by simp)
        next s1 hpush =>
          obtain rfl := (Option.some.inj h).symm
          constructor
          · show p.value = sumValues (upsert p.stocks t s1)
            rw [sumValues_upsert p.stocks t s s1 hl
              (push_preserves_value s s1 o c w hpush)]
            exact hp.1
          · exact hp.2
  | calcRisk =>
      unfold Portfolio.calculateRisk
      by_cases h0 : p.value ≤ 0
      · simpa [h0] using hp
      · by_cases hcache : p.cache = some p.stocks
        · simpa [h0, hcache] using hp
        · simp only [if_neg h0, if_neg hcache]
          refine ⟨hp.1, ?_⟩
          intro c h
          obtain rfl : p.stocks = c := Option.some.inj h
          rfl

lemma reach_inv {p : Portfolio} (hp : Reach p) : Inv p := by
  induction hp with
  | init =>
      refine ⟨rfl, ?_⟩
      intro c h
      exact absurd h (by simp [Portfolio.new])
  | step _ hs ih => exact inv_step ih hs

/-- C2: in any reachable portfolio state, performing any operation
(addStock, removeStock, updateStock, a push on a member stock, or even
calculateRisk itself) and then calling calculateRisk returns exactly the
risk computed fresh from the current member set — 0 when the current member
values do not sum to a positive total, otherwise the quadratic form on the
current weights and covariances — never a stale cached value. -/
theorem calculateRisk_reflects_mutations (p q : Portfolio) (hp : Reach p)
    (hs : Step p q) : (q.calculateRisk).2 = freshRisk q := by
  obtain ⟨hval, hcache⟩ := reach_inv (Reach.step hp hs)
  by_cases h0 : sumValues q.stocks ≤ 0
  · simp [Portfolio.calculateRisk, freshRisk, hval, h0]
  · by_cases hc : q.cache = some q.stocks
    · simp [Portfolio.calculateRisk, freshRisk, hval, h0, hc,
        hcache q.stocks hc]
    · simp [Portfolio.calculateRisk, freshRisk, hval, h0, hc]

/-- Witness for C2: one concrete addStock step from the initial state. -/
theorem calculateRisk_reflects_mutations_witness :
    ((Portfolio.new.addStock (Stock.new ("A")) 1).calculateRisk).2
      = freshRisk (Portfolio.new.addStock (Stock.new ("A")) 1) :=
  calculateRisk_reflects_mutations Portfolio.new
    (Portfolio.new.addStock (Stock.new ("A")) 1) Reach.init
    (Step.add Portfolio.new (Stock.new ("A")) 1)

lemma getStock_setStock (w : World) (r1 : ℕ) (s : StockObj) (r : ℕ) :
    (w.setStock r1 s).getStock r
      = if r1 = r ∧ r1 < w.stocks.length then s else w.getStock r :=
  getD_set w.stocks r1 r s default

lemma setStock_length (w : World) (r1 : ℕ) (s : StockObj) :
    (w.setStock r1 s).stocks.length = w.stocks.length := by
  simp [World.setStock]

lemma setWeights_length (total : ℚ) :
    ∀ (ms : List (String × ℕ)) (w : World),
      (setWeights w ms total).stocks.length = w.stocks.length := by
  intro ms
  induction ms with
  | nil => intro w; rfl
  | cons kv rest ih =>
      intro w
      obtain ⟨k0, r0⟩ := kv
      rw [setWeights, ih, setStock_length]

lemma setWeights_value (total : ℚ) :
    ∀ (ms : List (String × ℕ)) (w : World) (r : ℕ),
      ((setWeights w ms total).getStock r).value = (w.getStock r).value := by
  intro ms
  induction ms with
  | nil => intro w r; rfl
  | cons kv rest ih =>
      intro w r
      obtain ⟨k0, r0⟩ := kv
      rw [setWeights, ih, getStock_setStock]
      by_cases h : r0 = r ∧ r0 < w.stocks.length
      · rw [if_pos h]
        obtain ⟨h1, _⟩ := h
        subst h1
        rfl
      · rw [if_neg h]

lemma setWeights_not_mem (total : ℚ) (r : ℕ) :
    ∀ (ms : List (String × ℕ)) (w : World), (∀ kv ∈ ms, kv.2 ≠ r) →
      (setWeights w ms total).getStock r = w.getStock r := by
  intro ms
  induction ms with
  | nil => intro w _; rfl
  | cons kv rest ih =>
      intro w hne
      obtain ⟨k0, r0⟩ := kv
      rw [setWeights, ih _ (fun kv1 hkv1 => hne kv1 (List.mem_cons_of_mem _ hkv1)),
        getStock_setStock, if_neg]
      intro hcon
      exact absurd hcon.1 (hne (k0, r0) (List.mem_cons_self _ _))

lemma setWeights_weight_mem (total : ℚ) (r : ℕ) :
    ∀ (ms : List (String × ℕ)) (w : World), (∃ t, (t, r) ∈ ms) →
      r < w.stocks.length →
      ((setWeights w ms total).getStock r).weight
        = (w.getStock r).value / total := by
  intro ms
  induction ms with
  | nil =>
      intro w hm _
      simp at hm
  | cons kv rest ih =>
      intro w hm hr
      obtain ⟨k0, r0⟩ := kv
      by_cases hrest : ∃ t1, (t1, r) ∈ rest
      · rw [setWeights, ih _ hrest (by rw [setStock_length]; exact hr),
          getStock_setStock]
        by_cases h : r0 = r ∧ r0 < w.stocks.length
        · rw [if_pos h]
          obtain ⟨h1, _⟩ := h
          subst h1
          rfl
        · rw [if_neg h]
      · obtain ⟨t, ht⟩ := hm
        have hr0 : r0 = r := by
          rcases List.mem_cons.mp ht with heq | hmem
          · exact (congrArg Prod.snd heq).symm
          · exact absurd ⟨t, hmem⟩ hrest
        subst hr0
        rw [setWeights, setWeights_not_mem total r0 rest _ ?hne,
          getStock_setStock, if_pos ⟨rfl, hr⟩]
        case hne =>
          intro kv1 hkv1 hcon
          exact hrest ⟨kv1.1, by rw [← hcon]; exact hkv1⟩

/-- C10: addStock without clone stores the caller's Stock object itself (the
member map holds the very reference the caller passed) and writes the
value and the recomputed weight value / totalValue directly onto that
object on the heap; and every weight recompute of a portfolio holding that
reference writes that object's weight field again. -/
theorem addStock_no_clone_by_reference (w : World) (p : PortfolioH) (r : ℕ)
    (v : ℚ) (hr : r < w.stocks.length) :
    lookupKey ((w.addStockH p r v false).2).members (w.getStock r).ticker
      = some r ∧
    (((w.addStockH p r v false).1).getStock r).value = v ∧
    (((w.addStockH p r v false).1).getStock r).weight
      = v / ((w.addStockH p r v false).2).value ∧
    (∀ (w2 : World) (p2 : PortfolioH) (t : String),
      (t, r) ∈ p2.members → r < w2.stocks.length →
        (((w2.calculateWeightsH p2).1).getStock r).weight
          = (w2.getStock r).value / ((w2.calculateWeightsH p2).2).value) := by
  refine ⟨?_, ?_, ?_, ?_⟩
  · exact lookup_upsert p.members (w.getStock r).ticker r
  · show ((setWeights (w.setStock r { w.getStock r with value := v })
        (upsert p.members (w.getStock r).ticker r) _).getStock r).value = v
    rw [setWeights_value, getStock_setStock, if_pos ⟨rfl, hr⟩]
  · show ((setWeights (w.setStock r { w.getStock r with value := v })
        (upsert p.members (w.getStock r).ticker r) _).getStock r).weight = _
    rw [setWeights_weight_mem _ r _ _
        ⟨(w.getStock r).ticker, mem_upsert _ _ _⟩
        (by rw [setStock_length]; exact hr),
      getStock_setStock, if_pos ⟨rfl, hr⟩]
    rfl
  · intro w2 p2 t hmem hr2
    show ((setWeights w2 p2.members _).getStock r).weight
      = (w2.getStock r).value / _
    rw [setWeights_weight_mem _ r _ _ ⟨t, hmem⟩ hr2]
    rfl

/-- Witness for C10: register the freshly allocated stock 0 at value 5 in
an empty portfolio without cloning. -/
theorem addStock_no_clone_by_reference_witness :
    lookupKey ((((World.empty.newStock ("A")).1).addStockH PortfolioH.new 0 5
        false).2).members (((World.empty.newStock ("A")).1).getStock 0).ticker
      = some 0 ∧
    (((((World.empty.newStock ("A")).1).addStockH PortfolioH.new 0 5
        false).1).getStock 0).value = 5 ∧
    (((((World.empty.newStock ("A")).1).addStockH PortfolioH.new 0 5
        false).1).getStock 0).weight
      = 5 / ((((World.empty.newStock ("A")).1).addStockH PortfolioH.new 0 5
          false).2).value :=
  ⟨(addStock_no_clone_by_reference ((World.empty.newStock ("A")).1)
      PortfolioH.new 0 5 (by simp [World.empty, World.newStock])).1,
   (addStock_no_clone_by_reference ((World.empty.newStock ("A")).1)
      PortfolioH.new 0 5 (by simp [World.empty, World.newStock])).2.1,
   (addStock_no_clone_by_reference ((World.empty.newStock ("A")).1)
      PortfolioH.new 0 5 (by simp [World.empty, World.newStock])).2.2.1⟩

end Financier
